/-
Verification of the NKSR encoder/decoder module (`nksr/nn/encdec.py`).

The file shallowly embeds the three classes of that module —
`ResnetBlockFC`, `PointEncoder` and `MultiscalePointDecoder` — over exact
rational arithmetic.  Tensors become lists of rational vectors (one vector
per row); `nn.Linear` becomes an explicit weight matrix plus bias vector;
the external sparse-grid collaborator (`SparseFeatureHierarchy`) becomes a
structure of opaque function fields supplying exactly the operations the
module calls (`world_to_grid`, `ijk_to_index`, `num_voxels`, `voxel_size`,
`sample_trilinear`).  Failing calls (a Python `assert` or an attribute
access on a `None` grid) are modelled by `Option`-valued forward passes.
-/
import Mathlib

set_option maxHeartbeats 1000000

/-! ### Vectors, matrices and linear layers -/

/-- A feature vector: one row of a tensor. -/
abbrev Vec := List ℚ

/-- A weight matrix, stored as its list of rows (PyTorch layout:
`weight[out_idx][in_idx]`). -/
abbrev Mat := List Vec

/-- Dot product of two vectors (truncating to the shorter length, which is
never exercised on shape-consistent data). -/
def dot (a b : Vec) : ℚ := (List.zipWith (· * ·) a b).sum

/-- Matrix–vector product `W x`, one dot product per row of `W`. -/
def matVec (w : Mat) (x : Vec) : Vec := w.map (fun row => dot row x)

/-- Elementwise vector addition. -/
def vadd (a b : Vec) : Vec := List.zipWith (· + ·) a b

/-- Elementwise maximum of two vectors. -/
def vmax (a b : Vec) : Vec := List.zipWith max a b

/-- Elementwise ReLU, `torch.relu` / `nn.ReLU`. -/
def reluVec (x : Vec) : Vec := x.map (fun t => max t 0)

/-- An `nn.Linear(in, out)` layer: `apply x = weight · x + bias`. -/
structure Linear where
  weight : Mat
  bias : Vec
deriving DecidableEq

/-- Forward pass of a linear layer. -/
def Linear.apply (l : Linear) (x : Vec) : Vec := vadd (matVec l.weight x) l.bias

/-! ### Arithmetic helpers used by the source

`qmod a b` is Python's float `%` (result carries the divisor's sign; for
`b > 0` it lies in `[0, b)`): `a - b * ⌊a / b⌋`.  `roundTiesEven` is
`torch.round`, which rounds half-way cases to the nearest even integer. -/

/-- Python / torch float modulo: `a - b * ⌊a / b⌋`. -/
def qmod (a b : ℚ) : ℚ := a - b * ⌊a / b⌋

/-- `torch.round`: round to nearest integer, ties to even. -/
def roundTiesEven (x : ℚ) : ℤ :=
  let f := ⌊x⌋
  let r := x - f
  if r < 1/2 then f
  else if 1/2 < r then f + 1
  else if 2 ∣ f then f else f + 1

/-! ### ResnetBlockFC

```python
def forward(self, x):
    net = self.fc_0(self.actvn(x))
    dx = self.fc_1(self.actvn(net))
    if self.shortcut is not None:
        x_s = self.shortcut(x)
    else:
        x_s = x
    return x_s + dx
```

The constructor stores `size_in`, `size_h = min(size_in, size_out)` (by
default) and `size_out`; sets `shortcut = None` when `size_in == size_out`
and otherwise a bias-free linear layer; and zero-initializes *only* the
weight of `fc_1` (`nn.init.zeros_(self.fc_1.weight)`) — `fc_1.bias`, and
all of `fc_0`, keep PyTorch's random default initialization. -/

structure ResnetBlockFC where
  size_in : ℕ
  size_h : ℕ
  size_out : ℕ
  fc_0 : Linear
  fc_1 : Linear
  shortcut : Option Mat
deriving DecidableEq

/-- The shortcut branch: learned bias-free projection when present,
identity otherwise. -/
def ResnetBlockFC.shortcutVal (b : ResnetBlockFC) (x : Vec) : Vec :=
  match b.shortcut with
  | some w => matVec w x
  | none => x

/-- Forward pass of `ResnetBlockFC`. -/
def ResnetBlockFC.forward (b : ResnetBlockFC) (x : Vec) : Vec :=
  let net := b.fc_0.apply (reluVec x)
  let dx := b.fc_1.apply (reluVec net)
  vadd (b.shortcutVal x) dx

/-- The part of a fresh construction the initializer guarantees: the
`fc_1` weight matrix is all zeros (shape `size_out × size_h`).  The
biases and `fc_0` are random and unconstrained. -/
def ResnetBlockFC.freshWeightZero (b : ResnetBlockFC) : Prop :=
  b.fc_1.weight = List.replicate b.size_out (List.replicate b.size_h 0)

/-! ### Helper lemmas on the vector operations -/

theorem dot_replicate_zero (m : ℕ) (y : Vec) : dot (List.replicate m 0) y = 0 := by
  induction y generalizing m with
  | nil => simp [dot]
  | cons b bs ih =>
    cases m with
    | zero => simp [dot]
    | succ k =>
      have h := ih k
      simp only [dot, List.replicate_succ, List.zipWith_cons_cons, List.sum_cons] at h ⊢
      simp [h]

theorem matVec_replicate_zero (n m : ℕ) (y : Vec) :
    matVec (List.replicate n (List.replicate m 0)) y = List.replicate n 0 := by
  simp [matVec, List.map_replicate, dot_replicate_zero]

theorem vadd_replicate_zero_left (l : Vec) :
    vadd (List.replicate l.length 0) l = l := by
  induction l with
  | nil => rfl
  | cons b bs ih =>
    simp only [List.length_cons, List.replicate_succ, vadd, List.zipWith_cons_cons, zero_add]
    exact congrArg (b :: ·) ih

/-! ### Claim C1 -/

/-- A possible fresh construction of `ResnetBlockFC(1)`: `size_in =
size_h = size_out = 1`, `fc_1.weight` zeroed by the initializer,
`shortcut = None` (sizes equal), and random draws `fc_0 = (0·x + 0)`,
`fc_1.bias = 1/2` — all inside PyTorch's uniform init ranges. -/
def blockCE : ResnetBlockFC :=
  { size_in := 1, size_h := 1, size_out := 1
    fc_0 := { weight := [[0]], bias := [0] }
    fc_1 := { weight := [[0]], bias := [1/2] }
    shortcut := none }

/-- Claim C1 is false as stated: `blockCE` is a possible freshly
constructed block (`fc_1.weight` all zeros, identity shortcut, sizes
equal), yet its forward output on input `[0]` is `[1/2] ≠ [0]` — the
residual branch contributes `fc_1.bias`, which the initializer does not
zero. -/
theorem c1_counterexample :
    blockCE.size_in = blockCE.size_out ∧
    blockCE.shortcut = none ∧
    blockCE.freshWeightZero ∧
    blockCE.forward [0] ≠ [0] := by
  refine ⟨rfl, rfl, rfl, ?_⟩
  norm_num [ResnetBlockFC.forward, ResnetBlockFC.shortcutVal, Linear.apply,
    vadd, matVec, dot, reluVec, blockCE]

/-- Claim C1, amended: for a freshly constructed `ResnetBlockFC` (the
`fc_1` weight matrix is all zeros and the `fc_1` bias has the declared
output width), the forward output equals the shortcut value *plus the
`fc_1` bias vector*; the residual branch contributes exactly that
(random, in general nonzero) bias rather than zero. -/
theorem c1_amended (b : ResnetBlockFC) (x : Vec)
    (hw : b.freshWeightZero)
    (hb : b.fc_1.bias.length = b.size_out) :
    b.forward x = vadd (b.shortcutVal x) b.fc_1.bias := by
  show vadd (b.shortcutVal x) (b.fc_1.apply (reluVec (b.fc_0.apply (reluVec x)))) = _
  have hdx : b.fc_1.apply (reluVec (b.fc_0.apply (reluVec x))) = b.fc_1.bias := by
    unfold Linear.apply
    rw [ResnetBlockFC.freshWeightZero] at hw
    rw [hw, matVec_replicate_zero, ← hb, vadd_replicate_zero_left]
  rw [hdx]

/-- Witness for `c1_amended` at the concrete block `blockCE` and input
`[0]`. -/
theorem c1_amended_witness :
    blockCE.freshWeightZero ∧
    blockCE.fc_1.bias.length = blockCE.size_out ∧
    blockCE.forward [0] = vadd (blockCE.shortcutVal [0]) blockCE.fc_1.bias :=
  ⟨rfl, rfl, c1_amended blockCE [0] rfl rfl⟩

/-! ### The external sparse-grid collaborator

`nksr.svh.SparseFeatureHierarchy` is out of scope for this module (the
spec treats it as an external collaborator).  We model a per-depth grid
as a structure of the operations `encdec.py` calls on it, and the
hierarchy as a depth-indexed family of optional grids (`svh.grids[depth]`
may be `None`). -/

structure Grid where
  world_to_grid : Vec → Vec
  ijk_to_index : List ℤ → ℤ
  num_voxels : ℕ
  voxel_size : ℚ
  sample_trilinear : List Vec → List Vec → List Vec

structure SparseFeatureHierarchy where
  grids : ℕ → Option Grid

/-! ### torch_scatter primitives

`scatter_max(src, index, dim=0, dim_size)` reduces rows sharing an index
with elementwise max; `scatter_mean` with the group mean.  Both produce
`dim_size` rows; a group with no member yields an all-zero row (the
documented torch_scatter behaviour for uncovered outputs). -/

def scatterMax (src : List (ℤ × Vec)) (dim_size width : ℕ) : List Vec :=
  (List.range dim_size).map (fun (i : ℕ) =>
    match (src.filter (fun q => q.1 == (i : ℤ))).map Prod.snd with
    | [] => List.replicate width 0
    | g :: gs => gs.foldl vmax g)

def scatterMean (src : List (ℤ × Vec)) (dim_size width : ℕ) : List Vec :=
  (List.range dim_size).map (fun (i : ℕ) =>
    match (src.filter (fun q => q.1 == (i : ℤ))).map Prod.snd with
    | [] => List.replicate width 0
    | g :: gs => (gs.foldl vadd g).map (fun t => t / ((gs.length + 1 : ℕ) : ℚ)))

/-! ### PointEncoder

```python
grid = svh.grids[depth]
assert grid is not None, "Grid structure is not built for PointEncoder!"
pts_xyz = grid.world_to_grid(pts_xyz)
vid = grid.ijk_to_index(pts_xyz.round().int())
pts_xyz = (pts_xyz + 0.5) % 1
pts_mask = vid != -1
vid, pts_xyz = vid[pts_mask], pts_xyz[pts_mask]
if pts_feature is None:
    pts_feature = self.fc_pos(pts_xyz)
else:
    pts_feature = pts_feature[pts_mask]
    pts_feature = self.fc_pos(torch.cat([pts_xyz, pts_feature], dim=1))
pts_feature = self.blocks[0](pts_feature)
for block in self.blocks[1:]:
    pooled = scatter_max(pts_feature, vid, dim=0, dim_size=grid.num_voxels)[0]
    pooled = pooled[vid]
    pts_feature = torch.cat([pts_feature, pooled], dim=1)
    pts_feature = block(pts_feature)
c = self.fc_c(pts_feature)
c = scatter_mean(c, vid, dim=0, dim_size=grid.num_voxels)
```

Points are carried as `(voxel index, feature row)` pairs so that per-row
filtering and per-voxel grouping are explicit; the failing `assert` on a
missing grid is the `none` branch of the `Option` result. -/

structure PointEncoder where
  c_dim : ℕ
  hidden_dim : ℕ
  fc_pos : Linear
  blocks : List ResnetBlockFC
  fc_c : Linear

/-- The voxel row index `grid.ijk_to_index(world_to_grid(x).round().int())`
assigned to the point at world position `x` (`-1` = no active voxel). -/
def pointVid (grid : Grid) (x : Vec) : ℤ :=
  grid.ijk_to_index ((grid.world_to_grid x).map roundTiesEven)

/-- Stages of the encoder after the mask: first ResNet block, then for
each later block a per-voxel max-pool gathered back per point and
concatenated, then the `c_dim` projection and the per-voxel mean.
`kept` holds the surviving points as `(voxel index, fc_pos input)`. -/
def PointEncoder.encodeSurvivors (enc : PointEncoder) (grid : Grid)
    (kept : List (ℤ × Vec)) : List Vec :=
  let f0 := kept.map (fun q => (q.1, enc.fc_pos.apply q.2))
  let fB : List (ℤ × Vec) := match enc.blocks with
    | [] => f0
    | b0 :: rest =>
      rest.foldl (fun (cur : List (ℤ × Vec)) (blk : ResnetBlockFC) =>
        let pooled := scatterMax cur grid.num_voxels enc.hidden_dim
        cur.map (fun q =>
          (q.1, blk.forward (q.2 ++ pooled.getD q.1.toNat (List.replicate enc.hidden_dim 0)))))
        (f0.map (fun q => (q.1, b0.forward q.2)))
  let c := fB.map (fun q => (q.1, enc.fc_c.apply q.2))
  scatterMean c grid.num_voxels enc.c_dim

/-- `PointEncoder.forward`.  Returns `none` exactly when the `assert`
fires (no grid at `depth`); otherwise the `(num_voxels, c_dim)` code. -/
def PointEncoder.forward (enc : PointEncoder) (pts_xyz : List Vec)
    (pts_feature : Option (List Vec)) (svh : SparseFeatureHierarchy)
    (depth : ℕ) : Option (List Vec) :=
  (svh.grids depth).map (fun grid =>
    let loc := pts_xyz.map grid.world_to_grid
    let vid := loc.map (fun l => grid.ijk_to_index (l.map roundTiesEven))
    let fr := loc.map (fun l => l.map (fun t => qmod (t + 1/2) 1))
    let inputs : List (ℤ × Vec) := match pts_feature with
      | none => List.zip vid fr
      | some feats =>
        List.zip vid ((List.zip fr feats).map (fun (q : Vec × Vec) => q.1 ++ q.2))
    enc.encodeSurvivors grid (inputs.filter (fun q => q.1 != -1)))

/-! ### Claim C9 -/

/-- Claim C9: calling `PointEncoder.forward` at a depth whose grid was
never built fails at once on the `assert` — modelled as the `none`
result — before any coordinate transform, masking or aggregation; no
partial code tensor is produced. -/
theorem c9_encoder_missing_grid_fails (enc : PointEncoder) (pts_xyz : List Vec)
    (pts_feature : Option (List Vec)) (svh : SparseFeatureHierarchy) (depth : ℕ)
    (h : svh.grids depth = none) :
    enc.forward pts_xyz pts_feature svh depth = none := by
  unfold PointEncoder.forward
  rw [h]
  rfl

/-- Witness for `c9_encoder_missing_grid_fails`: a hierarchy with no
grids at all, queried at depth 0. -/
theorem c9_encoder_missing_grid_fails_witness :
    PointEncoder.forward ⟨1, 1, ⟨[[0]], [0]⟩, [], ⟨[[0]], [0]⟩⟩ [[0, 0, 0]] none
      ⟨fun _ => none⟩ 0 = none :=
  c9_encoder_missing_grid_fails _ _ _ _ 0 rfl

/-! ### Claim C2 helper lemmas -/

theorem zip_cons_middle {α β : Type} (l1 l2 : List α) (a : α) (m1 m2 : List β) (b : β)
    (h : l1.length = m1.length) :
    List.zip (l1 ++ a :: l2) (m1 ++ b :: m2) = List.zip l1 m1 ++ (a, b) :: List.zip l2 m2 := by
  rw [List.zip_append h, List.zip_cons_cons]

/-- Claim C2: a point whose rounded grid coordinate resolves to the
sentinel index `-1` has no influence on the Point Encoder's output:
removing it from the input (and, when per-point features are supplied,
removing its feature row) leaves the entire returned code tensor
unchanged, because the mask `vid != -1` filters it out before any pooling
or aggregation.  Both feature arms (`pts_feature` absent / present) are
covered. -/
theorem c2_masking (enc : PointEncoder) (svh : SparseFeatureHierarchy) (depth : ℕ)
    (grid : Grid) (hg : svh.grids depth = some grid)
    (xs1 xs2 : List Vec) (p : Vec) (hp : pointVid grid p = -1) :
    (enc.forward (xs1 ++ p :: xs2) none svh depth
      = enc.forward (xs1 ++ xs2) none svh depth) ∧
    ∀ (fs1 fs2 : List Vec) (fp : Vec), fs1.length = xs1.length →
      enc.forward (xs1 ++ p :: xs2) (some (fs1 ++ fp :: fs2)) svh depth
        = enc.forward (xs1 ++ xs2) (some (fs1 ++ fs2)) svh depth := by
  unfold pointVid at hp
  have hp2 : (grid.ijk_to_index ((grid.world_to_grid p).map roundTiesEven) != (-1 : ℤ))
      = false := by
    rw [hp]; rfl
  constructor
  · unfold PointEncoder.forward
    rw [hg]
    simp only [Option.map_some']
    congr 1
    simp only [List.map_map, List.map_append, List.map_cons]
    rw [zip_cons_middle _ _ _ _ _ _ (by simp),
        List.zip_append (by simp)]
    simp [List.filter_append, List.filter_cons, hp2]
  · intro fs1 fs2 fp hlen
    unfold PointEncoder.forward
    rw [hg]
    simp only [Option.map_some']
    congr 1
    simp only [List.map_map, List.map_append, List.map_cons]
    rw [zip_cons_middle _ _ _ _ _ _ (by simp [hlen]),
        List.map_append, List.map_cons,
        zip_cons_middle _ _ _ _ _ _ (by simp [hlen]),
        List.zip_append (α := Vec) (β := Vec) (by simp [hlen]),
        List.map_append,
        List.zip_append (by simp [hlen])]
    simp [List.filter_append, List.filter_cons, hp2]

/-! ### Claim C8 helper lemmas -/

theorem foldl_map_preserve {γ : Type} (P : ℤ → Prop)
    (step : List (ℤ × Vec) → γ → (ℤ × Vec) → Vec) (l : List γ) :
    ∀ (init : List (ℤ × Vec)), (∀ q ∈ init, P q.1) →
      ∀ q ∈ l.foldl (fun cur b => cur.map (fun q => (q.1, step cur b q))) init, P q.1 := by
  induction l with
  | nil => exact fun init h => h
  | cons b bs ih =>
    intro init h q hq
    refine ih _ ?_ q hq
    intro r hr
    obtain ⟨s, hs, hsr⟩ := List.mem_map.1 hr
    rw [← hsr]
    exact h s hs

theorem scatterMean_row_empty (src : List (ℤ × Vec)) (n w i : ℕ) (hi : i < n)
    (h : ∀ q ∈ src, q.1 ≠ (i : ℤ)) :
    (scatterMean src n w)[i]? = some (List.replicate w 0) := by
  unfold scatterMean
  rw [List.getElem?_map]
  have hr : (List.range n)[i]? = some i := by simp [List.getElem?_range, hi]
  rw [hr]
  have hf : src.filter (fun q => q.1 == (i : ℤ)) = [] := by
    refine List.filter_eq_nil_iff.2 ?_
    intro q hq
    simpa using h q hq
  simp only [Option.map_some', hf, List.map_nil]

theorem encodeSurvivors_row_empty (enc : PointEncoder) (grid : Grid)
    (kept : List (ℤ × Vec)) (i : ℕ) (hi : i < grid.num_voxels)
    (hk : ∀ q ∈ kept, q.1 ≠ (i : ℤ)) :
    (enc.encodeSurvivors grid kept)[i]? = some (List.replicate enc.c_dim 0) := by
  unfold PointEncoder.encodeSurvivors
  have h0 : ∀ q ∈ kept.map (fun q => (q.1, enc.fc_pos.apply q.2)), q.1 ≠ (i : ℤ) := by
    intro q hq
    obtain ⟨s, hs, hsr⟩ := List.mem_map.1 hq
    rw [← hsr]
    exact hk s hs
  cases hb : enc.blocks with
  | nil =>
    refine scatterMean_row_empty _ _ _ _ hi ?_
    intro q hq
    obtain ⟨s, hs, hsr⟩ := List.mem_map.1 hq
    rw [← hsr]
    exact h0 s hs
  | cons b0 rest =>
    refine scatterMean_row_empty _ _ _ _ hi ?_
    intro q hq
    obtain ⟨s, hs, hsr⟩ := List.mem_map.1 hq
    rw [← hsr]
    refine foldl_map_preserve (· ≠ (i : ℤ))
      (fun cur blk q =>
        blk.forward (q.2 ++ (scatterMax cur grid.num_voxels enc.hidden_dim).getD q.1.toNat
          (List.replicate enc.hidden_dim 0)))
      rest _ ?_ s hs
    intro r hr
    obtain ⟨u, hu, hur⟩ := List.mem_map.1 hr
    rw [← hur]
    exact h0 u hu

/-- Claim C8: a successful Point Encoder forward pass returns exactly
`num_voxels` rows, and a voxel row to which no input point is routed is
the well-defined all-zero row of width `c_dim` (the scatter primitives
yield a defined zero value for empty groups instead of failing).  In this
exact-arithmetic model every row is a defined rational vector, so the
no-NaN part of the claim is expressed by the rows being total values. -/
theorem c8_voxel_coverage (enc : PointEncoder) (pts : List Vec)
    (feats : Option (List Vec)) (svh : SparseFeatureHierarchy) (depth : ℕ)
    (grid : Grid) (code : List Vec)
    (hg : svh.grids depth = some grid)
    (hc : enc.forward pts feats svh depth = some code) :
    code.length = grid.num_voxels ∧
    ∀ i : ℕ, i < grid.num_voxels → (∀ x ∈ pts, pointVid grid x ≠ (i : ℤ)) →
      code[i]? = some (List.replicate enc.c_dim 0) := by
  unfold PointEncoder.forward at hc
  rw [hg, Option.map_some'] at hc
  have hc2 := (Option.some.inj hc).symm
  subst hc2
  constructor
  · show (scatterMean _ grid.num_voxels enc.c_dim).length = grid.num_voxels
    simp [scatterMean]
  · intro i hi hpts
    refine encodeSurvivors_row_empty enc grid _ i hi ?_
    intro q hq
    have hq2 := List.mem_filter.1 hq |>.1
    cases feats with
    | none =>
      have h1 := List.of_mem_zip hq2 |>.1
      simp only [List.map_map, List.mem_map] at h1
      obtain ⟨x, hx, hfx⟩ := h1
      rw [← hfx]
      exact hpts x hx
    | some fs =>
      have h1 := List.of_mem_zip hq2 |>.1
      simp only [List.map_map, List.mem_map] at h1
      obtain ⟨x, hx, hfx⟩ := h1
      rw [← hfx]
      exact hpts x hx

/-! ### Concrete data for the encoder witnesses -/

/-- A concrete grid: identity world-to-grid transform, a single active
voxel at integer coordinate `(0,0,0)` with row index 0, `num_voxels = 2`
(row 1 receives no points). -/
def gW : Grid :=
  { world_to_grid := fun v => v
    ijk_to_index := fun ijk => if ijk = [0, 0, 0] then 0 else -1
    num_voxels := 2
    voxel_size := 1
    sample_trilinear := fun _ _ => [] }

/-- A hierarchy with `gW` at depth 0 and nothing elsewhere. -/
def svhW : SparseFeatureHierarchy := ⟨fun d => if d = 0 then some gW else none⟩

/-- A concrete one-block encoder with `hidden_dim = c_dim = 1`. -/
def encW : PointEncoder :=
  { c_dim := 1, hidden_dim := 1
    fc_pos := { weight := [[1, 1, 1]], bias := [0] }
    blocks := [{ size_in := 3, size_h := 1, size_out := 1
                 fc_0 := { weight := [[1]], bias := [0] }
                 fc_1 := { weight := [[0]], bias := [0] }
                 shortcut := some [[1]] }]
    fc_c := { weight := [[1]], bias := [0] } }

/-- Witness for `c2_masking`: the point `(5,5,5)` rounds to an inactive
voxel (sentinel `-1`); dropping it — with or without a feature row —
leaves the encoder output unchanged. -/
theorem c2_masking_witness :
    pointVid gW [5, 5, 5] = -1 ∧
    encW.forward [[0, 0, 0], [5, 5, 5]] none svhW 0
      = encW.forward [[0, 0, 0]] none svhW 0 ∧
    encW.forward [[0, 0, 0], [5, 5, 5]] (some [[7], [9]]) svhW 0
      = encW.forward [[0, 0, 0]] (some [[7]]) svhW 0 := by
  have hp : pointVid gW [5, 5, 5] = -1 := by
    norm_num [pointVid, gW, roundTiesEven]
  have h := c2_masking encW svhW 0 gW rfl [[0, 0, 0]] [] [5, 5, 5] hp
  exact ⟨hp, h.1, h.2 [[7]] [] [9] rfl⟩

/-- Witness for `c8_voxel_coverage`: one point routed to voxel 0 of a
two-voxel grid; the code has 2 rows and row 1 (no points) is the zero
row. -/
theorem c8_voxel_coverage_witness :
    encW.forward [[0, 0, 0]] none svhW 0 = some [[3/2], [0]] ∧
    ([[(3:ℚ)/2], [0]] : List Vec).length = gW.num_voxels ∧
    ([[(3:ℚ)/2], [0]] : List Vec)[1]? = some (List.replicate encW.c_dim 0) := by
  have hfr : Int.fract ((1 : ℚ)/2) = 1/2 := Int.fract_eq_self.mpr (by norm_num)
  have hc : encW.forward [[0, 0, 0]] none svhW 0 = some [[3/2], [0]] := by
    norm_num +decide [PointEncoder.forward, PointEncoder.encodeSurvivors, scatterMean,
      scatterMax, Linear.apply, matVec, dot, vadd, vmax, reluVec, ResnetBlockFC.forward,
      ResnetBlockFC.shortcutVal, qmod, roundTiesEven, gW, svhW, encW,
      List.range_succ, List.filter, hfr]
  have hx : ∀ x ∈ [[(0:ℚ), 0, 0]], pointVid gW x ≠ (1 : ℤ) := by
    intro x hx
    simp only [List.mem_singleton] at hx
    subst hx
    norm_num [pointVid, gW, roundTiesEven]
  have h := c8_voxel_coverage encW [[0, 0, 0]] none svhW 0 gW [[3/2], [0]] rfl hc
  exact ⟨hc, h.1, h.2 1 (by norm_num [gW]) hx⟩

/-! ### MultiscalePointDecoder

```python
if aggregation == 'cat':
    c_dim = c_each_dim * multiscale_depths
elif aggregation == 'sum':
    c_dim = c_each_dim
else:
    raise NotImplementedError
if coords_depths is None:
    coords_depths = list(range(multiscale_depths))
coords_depths = sorted(coords_depths)
...
if out_init is not None:
    nn.init.zeros_(self.fc_out.weight)
    nn.init.constant_(self.fc_out.bias, out_init)
```

and the forward pass:

```python
p_feats = []
for did in self.coords_depths:
    vs = svh.grids[did].voxel_size
    p = (xyz % vs) / vs - 0.5
    p_feats.append(p)
p = torch.cat(p_feats, dim=1)
c_feats = []
for did in range(self.multiscale_depths):
    if svh.grids[did] is None:
        c = torch.zeros((xyz.size(0), self.c_each_dim), device=xyz.device)
    else:
        c = svh.grids[did].sample_trilinear(xyz, multiscale_feat[did])
    c_feats.append(c)
if self.aggregation == 'cat':
    c = torch.cat(c_feats, dim=1)
else:
    c = sum(c_feats)
net = self.fc_p(p)
for i in range(self.n_blocks):
    net = net + self.fc_c[i](c)
    net = self.blocks[i](net)
out = self.fc_out(F.relu(net))
```
-/

structure MultiscalePointDecoder where
  c_dim : ℕ
  c_each_dim : ℕ
  n_blocks : ℕ
  multiscale_depths : ℕ
  aggregation : String
  coords_depths : List ℕ
  fc_c : List Linear
  fc_p : Linear
  blocks : List ResnetBlockFC
  fc_out : Linear
  out_dim : ℕ

/-- The `MultiscalePointDecoder` constructor.  The randomly initialized
layers are passed in as parameters (their random draws are outside the
module); the constructor validates the aggregation mode (returning `none`
for the `raise NotImplementedError` branch, reached before any forward
evaluation is possible), computes `c_dim`, defaults and sorts
`coords_depths`, and — when `out_init` is given — replaces the `fc_out`
initialization by zero weight and constant bias `out_init`. -/
def MultiscalePointDecoder.init (c_each_dim multiscale_depths out_dim hidden_size n_blocks : ℕ)
    (aggregation : String) (out_init : Option ℚ) (coords_depths : Option (List ℕ))
    (fc_c : List Linear) (fc_p : Linear) (blocks : List ResnetBlockFC) (fc_out : Linear) :
    Option MultiscalePointDecoder :=
  (if aggregation = "cat" then some (c_each_dim * multiscale_depths)
   else if aggregation = "sum" then some c_each_dim
   else none).map (fun c_dim =>
    { c_dim := c_dim
      c_each_dim := c_each_dim
      n_blocks := n_blocks
      multiscale_depths := multiscale_depths
      aggregation := aggregation
      coords_depths :=
        List.insertionSort (· ≤ ·) (coords_depths.getD (List.range multiscale_depths))
      fc_c := fc_c
      fc_p := fc_p
      blocks := blocks
      fc_out := match out_init with
        | none => fc_out
        | some v => { weight := List.replicate out_dim (List.replicate hidden_size 0)
                      bias := List.replicate out_dim v }
      out_dim := out_dim })

/-- One axis of the positional encoding at voxel size `vs`:
`(x % vs) / vs - 0.5`. -/
def localCoord (vs t : ℚ) : ℚ := qmod t vs / vs - 1/2

/-- The grids read by the positional-encoding loop, in `coords_depths`
order; the loop dereferences `svh.grids[did].voxel_size` unconditionally,
so a missing grid at any listed depth fails the whole call (`none`). -/
def seqGrids (svh : SparseFeatureHierarchy) : List ℕ → Option (List Grid)
  | [] => some []
  | d :: ds =>
    match svh.grids d, seqGrids svh ds with
    | some g, some gs => some (g :: gs)
    | _, _ => none

/-- The per-depth sampled features (`c_feats` in the source): for each
depth in `range multiscale_depths`, either the grid's trilinear sample of
that depth's code tensor at the query positions, or — when the depth's
grid is absent — an all-zero `(len xyz, c_each_dim)` tensor. -/
def MultiscalePointDecoder.cFeats (dec : MultiscalePointDecoder)
    (svh : SparseFeatureHierarchy) (multiscale_feat : ℕ → List Vec)
    (xyz : List Vec) : List (List Vec) :=
  (List.range dec.multiscale_depths).map (fun did =>
    match svh.grids did with
    | none => List.replicate xyz.length (List.replicate dec.c_each_dim 0)
    | some g => g.sample_trilinear xyz (multiscale_feat did))

/-- The depth-aggregation step: concatenation for `'cat'`, elementwise
sum otherwise (only `'sum'` reaches here, the constructor having rejected
everything else).  `rows` holds one `c_each_dim`-wide row per depth for a
single query point; Python's `sum` of an empty list is the scalar 0,
modelled as the zero row. -/
def aggregateFeats (aggregation : String) (c_each_dim : ℕ) (rows : List Vec) : Vec :=
  if aggregation = "cat" then rows.flatten
  else match rows with
    | [] => List.replicate c_each_dim 0
    | r :: rs => rs.foldl vadd r

/-- `MultiscalePointDecoder.forward`, row by row over the query batch
(all source operations are per-row; `q.1` is the query's row index, used
to read its row of each depth's sampled feature tensor). -/
def MultiscalePointDecoder.forward (dec : MultiscalePointDecoder) (xyz : List Vec)
    (svh : SparseFeatureHierarchy) (multiscale_feat : ℕ → List Vec) :
    Option (List Vec) :=
  (seqGrids svh dec.coords_depths).map (fun cgrids =>
    let c_feats := dec.cFeats svh multiscale_feat xyz
    xyz.enum.map (fun q =>
      let p := (cgrids.map (fun g => q.2.map (localCoord g.voxel_size))).flatten
      let cRow := aggregateFeats dec.aggregation dec.c_each_dim
        (c_feats.map (fun cf => cf.getD q.1 []))
      let net := (List.zip dec.fc_c dec.blocks).foldl
        (fun net fb => fb.2.forward (vadd net (fb.1.apply cRow))) (dec.fc_p.apply p)
      dec.fc_out.apply (reluVec net)))

/-! ### Claim C3 -/

/-- Claim C3: constructing a `MultiscalePointDecoder` with an aggregation
mode other than `'cat'` or `'sum'` fails with the unimplemented-
configuration error (the `none` result of `init`), before any forward
evaluation is possible; for the two supported modes construction succeeds
with `c_dim = c_each_dim * multiscale_depths` for `'cat'` and
`c_dim = c_each_dim` for `'sum'`. -/
theorem c3_aggregation_validation
    (c_each_dim multiscale_depths out_dim hidden_size n_blocks : ℕ)
    (agg : String) (out_init : Option ℚ) (cds : Option (List ℕ))
    (fc_c : List Linear) (fc_p : Linear) (blocks : List ResnetBlockFC) (fc_out : Linear) :
    (agg ≠ "cat" → agg ≠ "sum" →
      MultiscalePointDecoder.init c_each_dim multiscale_depths out_dim hidden_size
        n_blocks agg out_init cds fc_c fc_p blocks fc_out = none) ∧
    (∃ dec, MultiscalePointDecoder.init c_each_dim multiscale_depths out_dim hidden_size
        n_blocks "cat" out_init cds fc_c fc_p blocks fc_out = some dec ∧
      dec.c_dim = c_each_dim * multiscale_depths) ∧
    (∃ dec, MultiscalePointDecoder.init c_each_dim multiscale_depths out_dim hidden_size
        n_blocks "sum" out_init cds fc_c fc_p blocks fc_out = some dec ∧
      dec.c_dim = c_each_dim) := by
  refine ⟨?_, ?_, ?_⟩
  · intro h1 h2
    unfold MultiscalePointDecoder.init
    rw [if_neg h1, if_neg h2]
    rfl
  · exact ⟨_, rfl, rfl⟩
  · exact ⟨_, rfl, rfl⟩

/-! ### Claim C10 helper lemmas -/

theorem seqGrids_eq_none (svh : SparseFeatureHierarchy) (l : List ℕ) (d : ℕ)
    (hd : d ∈ l) (h : svh.grids d = none) : seqGrids svh l = none := by
  induction l with
  | nil => cases hd
  | cons a as ih =>
    rcases List.mem_cons.1 hd with h1 | h1
    · subst h1
      unfold seqGrids
      rw [h]
    · unfold seqGrids
      rw [ih h1]
      cases svh.grids a <;> rfl

/-- Claim C10: the decoder's positional-encoding loop reads
`svh.grids[did].voxel_size` for every `did` in `coords_depths` without a
presence check, so if any such depth's grid is absent the whole forward
call fails (`none`) — even though absent grids at depths used only for
feature sampling are tolerated by zero substitution. -/
theorem c10_missing_coords_grid_fails (dec : MultiscalePointDecoder) (xyz : List Vec)
    (svh : SparseFeatureHierarchy) (multiscale_feat : ℕ → List Vec) (d : ℕ)
    (hmem : d ∈ dec.coords_depths) (hd : svh.grids d = none) :
    dec.forward xyz svh multiscale_feat = none := by
  unfold MultiscalePointDecoder.forward
  rw [seqGrids_eq_none svh dec.coords_depths d hmem hd]
  rfl

/-! ### Claim C6 -/

theorem localCoord_eq_fract (s t : ℚ) (hs : s ≠ 0) :
    localCoord s t = Int.fract (t / s) - 1/2 := by
  unfold localCoord qmod
  rw [sub_div, mul_comm, mul_div_assoc, div_self hs, mul_one, Int.self_sub_floor]

/-- Claim C6: the decoder's per-depth local coordinate
`(x % s)/s - 0.5` (the `localCoord` used by `forward` for every depth in
`coords_depths`) lies in `[-1/2, 1/2)` for voxel size `s > 0`, and is
identical for positions `x` and `x + s` (periodicity with period `s`). -/
theorem c6_positional_encoding (s x : ℚ) (hs : 0 < s) :
    (-(1/2) ≤ localCoord s x ∧ localCoord s x < 1/2) ∧
    localCoord s (x + s) = localCoord s x := by
  have hs0 : s ≠ 0 := ne_of_gt hs
  constructor
  · rw [localCoord_eq_fract s x hs0]
    have h1 := Int.fract_nonneg (x / s)
    have h2 := Int.fract_lt_one (x / s)
    constructor <;> linarith
  · rw [localCoord_eq_fract s x hs0, localCoord_eq_fract s (x + s) hs0]
    have hd : (x + s) / s = x / s + 1 := by field_simp
    rw [hd, Int.fract_add_one]

theorem c6_positional_encoding_witness :
    (0 : ℚ) < 1/2 ∧
    ((-(1/2) ≤ localCoord (1/2) 3 ∧ localCoord (1/2) 3 < 1/2) ∧
      localCoord (1/2) (3 + 1/2) = localCoord (1/2) 3) :=
  ⟨by norm_num, c6_positional_encoding (1/2) 3 (by norm_num)⟩

/-! ### Claim C7 -/

theorem vadd_map_scalar (c : ℚ) (v : Vec) :
    vadd (v.map (fun t => c * t)) v = v.map (fun t => (c + 1) * t) := by
  induction v with
  | nil => rfl
  | cons a as ih =>
    simp only [List.map_cons, vadd, List.zipWith_cons_cons] at ih ⊢
    rw [ih]
    congr 1
    ring

theorem foldl_vadd_replicate (v : Vec) (k : ℕ) : ∀ c : ℚ,
    List.foldl vadd (v.map (fun t => c * t)) (List.replicate k v)
      = v.map (fun t => (c + k) * t) := by
  induction k with
  | zero => intro c; simp
  | succ n ih =>
    intro c
    rw [List.replicate_succ, List.foldl_cons, vadd_map_scalar, ih (c + 1)]
    apply List.map_congr_left
    intro a _
    push_cast
    ring

/-- Claim C7: in the decoder's depth-aggregation step, if all `D ≥ 1`
per-depth sampled rows equal the same vector `v`, `'cat'` aggregation
yields the concatenation of the `D` copies of `v` and `'sum'` aggregation
yields `D • v`. -/
theorem c7_aggregation_modes (D w : ℕ) (v : Vec) (hD : 1 ≤ D) :
    aggregateFeats "cat" w (List.replicate D v) = (List.replicate D v).flatten ∧
    aggregateFeats "sum" w (List.replicate D v) = v.map (fun t => (D : ℚ) * t) := by
  constructor
  · unfold aggregateFeats
    rw [if_pos rfl]
  · obtain ⟨k, rfl⟩ : ∃ k, D = k + 1 := ⟨D - 1, by omega⟩
    unfold aggregateFeats
    rw [if_neg (by decide), List.replicate_succ]
    show List.foldl vadd v (List.replicate k v) = _
    have h1 : v.map (fun t => (1 : ℚ) * t) = v := by simp
    calc List.foldl vadd v (List.replicate k v)
        = List.foldl vadd (v.map (fun t => (1 : ℚ) * t)) (List.replicate k v) := by rw [h1]
      _ = v.map (fun t => ((1 : ℚ) + k) * t) := foldl_vadd_replicate v k 1
      _ = v.map (fun t => ((k + 1 : ℕ) : ℚ) * t) := by
          apply List.map_congr_left
          intro a _
          push_cast
          ring

theorem c7_aggregation_modes_witness :
    1 ≤ 2 ∧
    aggregateFeats "cat" 2 (List.replicate 2 [(1 : ℚ), 2]) = [1, 2, 1, 2] ∧
    aggregateFeats "sum" 2 (List.replicate 2 [(1 : ℚ), 2]) = [2, 4] := by
  have h := c7_aggregation_modes 2 2 [(1 : ℚ), 2] (by norm_num)
  refine ⟨by norm_num, ?_, ?_⟩
  · rw [h.1]
    rfl
  · rw [h.2]
    norm_num

/-! ### Claim C4 -/

theorem seqGrids_congr (svh svh2 : SparseFeatureHierarchy) (l : List ℕ)
    (h : ∀ d ∈ l, svh.grids d = svh2.grids d) :
    seqGrids svh l = seqGrids svh2 l := by
  induction l with
  | nil => rfl
  | cons a as ih =>
    unfold seqGrids
    rw [h a (List.mem_cons_self a as), ih (fun d hd => h d (List.mem_cons_of_mem a hd))]

/-- Claim C4: a depth `d` whose grid is absent contributes the zero
`(len xyz, c_each_dim)` tensor: decoding with depth `d` absent gives the
same output as decoding with a grid present at `d` whose trilinear sample
of that depth's features is the explicit zero tensor of that shape.
`d ∉ coords_depths` because the positional-encoding loop tolerates no
absent grid (claim C10); all other depths are untouched. -/
theorem c4_absent_depth_zero (dec : MultiscalePointDecoder) (xyz : List Vec)
    (svh svh2 : SparseFeatureHierarchy) (multiscale_feat : ℕ → List Vec)
    (d : ℕ) (g : Grid)
    (hd : svh.grids d = none)
    (hg : svh2.grids d = some g)
    (hsame : ∀ i, i ≠ d → svh2.grids i = svh.grids i)
    (hzero : g.sample_trilinear xyz (multiscale_feat d)
      = List.replicate xyz.length (List.replicate dec.c_each_dim 0))
    (hcd : d ∉ dec.coords_depths) :
    dec.forward xyz svh multiscale_feat = dec.forward xyz svh2 multiscale_feat := by
  unfold MultiscalePointDecoder.forward
  have h1 : seqGrids svh dec.coords_depths = seqGrids svh2 dec.coords_depths := by
    apply seqGrids_congr
    intro a ha
    exact (hsame a (fun hda => hcd (hda ▸ ha))).symm
  have h2 : dec.cFeats svh multiscale_feat xyz = dec.cFeats svh2 multiscale_feat xyz := by
    unfold MultiscalePointDecoder.cFeats
    apply List.map_congr_left
    intro did _
    by_cases hdd : did = d
    · subst hdd
      rw [hd, hg]
      show (List.replicate xyz.length (List.replicate dec.c_each_dim 0) : List Vec)
        = g.sample_trilinear xyz (multiscale_feat did)
      exact hzero.symm
    · rw [hsame did hdd]
  rw [h1]
  simp only [h2]

/-! ### Claim C5 -/

theorem vadd_replicate_zero_replicate (n : ℕ) (v : ℚ) :
    vadd (List.replicate n 0) (List.replicate n v) = List.replicate n v := by
  induction n with
  | zero => rfl
  | succ k ih =>
    simp only [vadd] at ih ⊢
    simp only [List.replicate_succ, List.zipWith_cons_cons, zero_add]
    rw [ih]

theorem linear_apply_zero_const (od hs : ℕ) (v : ℚ) (y : Vec) :
    Linear.apply { weight := List.replicate od (List.replicate hs 0),
                   bias := List.replicate od v } y = List.replicate od v := by
  unfold Linear.apply
  show vadd (matVec (List.replicate od (List.replicate hs 0)) y) (List.replicate od v) = _
  rw [matVec_replicate_zero, vadd_replicate_zero_replicate]

/-- Claim C5: a decoder constructed with `out_init = some v` has zero
`fc_out` weight and constant bias `v`, so every row a successful forward
pass returns equals `v` in every output component, for every query batch,
hierarchy and feature input. -/
theorem c5_out_init_constant
    (c_each_dim multiscale_depths out_dim hidden_size n_blocks : ℕ)
    (agg : String) (v : ℚ) (cds : Option (List ℕ))
    (fc_c : List Linear) (fc_p : Linear) (blocks : List ResnetBlockFC) (fc_out : Linear)
    (dec : MultiscalePointDecoder) (xyz : List Vec) (svh : SparseFeatureHierarchy)
    (multiscale_feat : ℕ → List Vec) (out : List Vec)
    (hinit : MultiscalePointDecoder.init c_each_dim multiscale_depths out_dim hidden_size
      n_blocks agg (some v) cds fc_c fc_p blocks fc_out = some dec)
    (hf : dec.forward xyz svh multiscale_feat = some out) :
    ∀ row ∈ out, row = List.replicate out_dim v := by
  unfold MultiscalePointDecoder.init at hinit
  obtain ⟨cd, hcd, hdec⟩ := Option.map_eq_some'.1 hinit
  subst hdec
  unfold MultiscalePointDecoder.forward at hf
  obtain ⟨cgrids, hcg, hout⟩ := Option.map_eq_some'.1 hf
  subst hout
  intro row hrow
  simp only [List.mem_map] at hrow
  obtain ⟨q, hq, hrq⟩ := hrow
  rw [← hrq]
  exact linear_apply_zero_const out_dim hidden_size v _

/-! ### Concrete data for the decoder witnesses -/

/-- A concrete 1×1 linear layer. -/
def fcO : Linear := { weight := [[1]], bias := [0] }

/-- A concrete width-1 residual block. -/
def blkO : ResnetBlockFC :=
  { size_in := 1, size_h := 1, size_out := 1, fc_0 := fcO
    fc_1 := { weight := [[0]], bias := [0] }, shortcut := none }

/-- A grid whose trilinear sampler returns the constant row `[1]`. -/
def gD : Grid :=
  { world_to_grid := fun v => v
    ijk_to_index := fun _ => 0
    num_voxels := 1
    voxel_size := 1
    sample_trilinear := fun xyz _ => List.replicate xyz.length [1] }

/-- A grid whose trilinear sampler returns the all-zero row `[0]`. -/
def gZ : Grid :=
  { world_to_grid := fun v => v
    ijk_to_index := fun _ => 0
    num_voxels := 1
    voxel_size := 1
    sample_trilinear := fun xyz _ => List.replicate xyz.length [0] }

/-- Hierarchy with `gD` at depth 0 only. -/
def svhD : SparseFeatureHierarchy := ⟨fun d => if d = 0 then some gD else none⟩

/-- Hierarchy for the C4 witness: depth 0 absent, depth 1 = `gD`. -/
def svhA : SparseFeatureHierarchy := ⟨fun d => if d = 1 then some gD else none⟩

/-- Hierarchy for the C4 witness: depth 0 = `gZ` (zero sampler),
depth 1 = `gD`. -/
def svhB : SparseFeatureHierarchy :=
  ⟨fun d => if d = 0 then some gZ else if d = 1 then some gD else none⟩

/-- The decoder `init 1 1 1 1 1 "sum" (some 7) none [fcO] fcO [blkO] fcO`
produces. -/
def decW5 : MultiscalePointDecoder :=
  { c_dim := 1, c_each_dim := 1, n_blocks := 1, multiscale_depths := 1
    aggregation := "sum", coords_depths := [0], fc_c := [fcO], fc_p := fcO
    blocks := [blkO]
    fc_out := { weight := [[0]], bias := [7] }, out_dim := 1 }

/-- A two-depth `'cat'` decoder that uses only depth 1 for its positional
encoding, so depth 0 may be absent. -/
def decW4 : MultiscalePointDecoder :=
  { c_dim := 2, c_each_dim := 1, n_blocks := 1, multiscale_depths := 2
    aggregation := "cat", coords_depths := [1]
    fc_c := [{ weight := [[1, 1]], bias := [0] }], fc_p := fcO, blocks := [blkO]
    fc_out := fcO, out_dim := 1 }

/-- Witness for `c3_aggregation_validation` at the unsupported mode
`"mean"` and at the two supported modes. -/
theorem c3_aggregation_validation_witness :
    MultiscalePointDecoder.init 2 3 1 1 1 "mean" none none [] fcO [] fcO = none ∧
    (∃ dec, MultiscalePointDecoder.init 2 3 1 1 1 "cat" none none [] fcO [] fcO
        = some dec ∧ dec.c_dim = 2 * 3) ∧
    (∃ dec, MultiscalePointDecoder.init 2 3 1 1 1 "sum" none none [] fcO [] fcO
        = some dec ∧ dec.c_dim = 2) := by
  have h := c3_aggregation_validation 2 3 1 1 1 "mean" none none [] fcO [] fcO
  exact ⟨h.1 (by decide) (by decide), h.2.1, h.2.2⟩

/-- Witness for `c10_missing_coords_grid_fails`: `decW5` lists depth 0 in
`coords_depths` and the hierarchy has no grid there. -/
theorem c10_missing_coords_grid_fails_witness :
    0 ∈ decW5.coords_depths ∧
    decW5.forward [[0, 0, 0]] ⟨fun _ => none⟩ (fun _ => [[1]]) = none := by
  have hm : 0 ∈ decW5.coords_depths := by
    show 0 ∈ [0]
    exact List.mem_singleton.2 rfl
  exact ⟨hm, c10_missing_coords_grid_fails decW5 _ _ _ 0 hm rfl⟩

/-- Witness for `c4_absent_depth_zero`: `decW4` decoding with depth 0
absent equals decoding with depth 0 present but sampling zeros. -/
theorem c4_absent_depth_zero_witness :
    svhA.grids 0 = none ∧
    svhB.grids 0 = some gZ ∧
    0 ∉ decW4.coords_depths ∧
    decW4.forward [[(1:ℚ)/2, 0, 0]] svhA (fun _ => [[1]])
      = decW4.forward [[(1:ℚ)/2, 0, 0]] svhB (fun _ => [[1]]) := by
  have hsame : ∀ i, i ≠ 0 → svhB.grids i = svhA.grids i := by
    intro i hi
    show (if i = 0 then some gZ else if i = 1 then some gD else none)
      = (if i = 1 then some gD else none)
    rw [if_neg hi]
  have hz : gZ.sample_trilinear [[(1:ℚ)/2, 0, 0]] ((fun _ => [[1]]) 0)
      = List.replicate ([[(1:ℚ)/2, 0, 0]] : List Vec).length
          (List.replicate decW4.c_each_dim 0) := rfl
  have hcd : 0 ∉ decW4.coords_depths := by
    show 0 ∉ [1]
    simp
  exact ⟨rfl, rfl, hcd,
    c4_absent_depth_zero decW4 _ svhA svhB _ 0 gZ rfl rfl hsame hz hcd⟩

/-- Witness for `c5_out_init_constant`: the decoder built with
`out_init = 7` returns the row `[7]` on a concrete query. -/
theorem c5_out_init_constant_witness :
    MultiscalePointDecoder.init 1 1 1 1 1 "sum" (some 7) none [fcO] fcO [blkO] fcO
      = some decW5 ∧
    decW5.forward [[(1:ℚ)/2, 0, 0]] svhD (fun _ => [[1]]) = some [[7]] ∧
    ∀ row ∈ [([7] : Vec)], row = List.replicate 1 (7 : ℚ) := by
  have hi : MultiscalePointDecoder.init 1 1 1 1 1 "sum" (some 7) none [fcO] fcO [blkO] fcO
      = some decW5 := rfl
  have hfr : Int.fract ((1 : ℚ)/2) = 1/2 := Int.fract_eq_self.mpr (by norm_num)
  have hf : decW5.forward [[(1:ℚ)/2, 0, 0]] svhD (fun _ => [[1]]) = some [[7]] := by
    norm_num [MultiscalePointDecoder.forward, MultiscalePointDecoder.cFeats, seqGrids,
      aggregateFeats, localCoord, qmod, Linear.apply, matVec, dot, vadd, reluVec,
      ResnetBlockFC.forward, ResnetBlockFC.shortcutVal, List.enum, List.enumFrom,
      List.range_succ, decW5, svhD, gD, fcO, blkO, hfr]
  exact ⟨hi, hf,
    c5_out_init_constant 1 1 1 1 1 "sum" 7 none [fcO] fcO [blkO] fcO decW5 _ svhD _
      [[7]] hi hf⟩
